import Mathlib

/-!
Shallow embedding of the go-cose signing library (package `cose`).

Go `interface{}` header keys/values are modelled by the tagged union `GoValue`,
whose constructors record the *dynamic Go type* of the value (Go type
assertions such as `k.(int)` succeed only on an exact dynamic-type match, so
`int`, `int64`, `uint64`, `CommonHeaderID`, `AlgID`, ... must stay distinct).
Go maps are modelled as association lists (one entry per key); byte slices as
`List Nat`; a nilable slice/map/pointer as an `Option`.

External collaborators (the CBOR codec, the hash functions, `ecdsa.Sign` /
`ecdsa.Verify`, the random source) are opaque parameters: they are passed in
as function arguments (`Env`, signer/verifier records, the `R`/`S` integers
produced by `ecdsa.Sign`, the curve-verification predicate), never modelled
from their own code.
-/

/-- Dynamic Go values used as header-map keys and values. Each constructor is
one dynamic Go type. -/
inductive GoValue where
  | str (s : String)        -- string
  | int (n : Int)           -- int
  | int64 (n : Int)         -- int64
  | uint64 (n : Nat)        -- uint64
  | chID (n : Int)          -- CommonHeaderID (a defined type with underlying int)
  | chName (s : String)     -- CommonHeaderName (defined type, underlying string)
  | algID (n : Int)         -- AlgID (defined type, underlying int)
  | algName (s : String)    -- AlgName (defined type, underlying string)
  | bytes (bs : List Nat)   -- []byte
  | boolean (b : Bool)      -- bool
  | null                    -- nil
  deriving DecidableEq

/-- The error values of the package (`errors.go`), plus the distinct
`fmt.Errorf` errors constructed inline by `Sign`, `Verify`, `Get` and the
ECDSA verifier. -/
inductive GoError where
  | errKeyNotFound
  | errAmbiguousKey
  | errMissingCOSETagForLabel
  | errMissingCOSETagForTag
  | errAlgNotFound
  | errInvalidAlg
  | errNilSignatures
  | errNoSignatures
  | errSignersForSignatures (nSigners nSigs : Nat)
  | errNilSigHeader
  | errNilSigProtectedHeaders
  | errAlreadyHasSignatureBytes (i : Nat)
  | errMissingSignatureBytes (i : Nat)
  | errMarshalingSigStructure
  | errUnavailableHashFunc
  | errWrongSignerForSignature (signerAlg sigAlg : Int)
  | errNoKeySize
  | errInvalidSignatureLength (len : Nat)
  | errECDSAVerification
  deriving DecidableEq

/-- Go runtime aborts (`panic` / `log.Fatalf`) reachable from the modelled
code paths. -/
inductive GoPanic where
  | encodeNilHeaders     -- Headers.EncodeProtected on a nil *Headers
  | marshalFatal         -- log.Fatalf on a Marshal error of protected headers
  | indexOutOfRange      -- out-of-range slice index
  deriving DecidableEq

/-- Result of running a fragment of Go code: a value, a returned error, or a
runtime abort. -/
inductive Outcome (α : Type) where
  | ok (a : α)
  | err (e : GoError)
  | goPanic (p : GoPanic)
  deriving DecidableEq

/-- Hash functions used by the signing algorithms (`crypto.Hash` values). -/
inductive Hash where
  | sha256
  | sha384
  | sha512
  deriving DecidableEq

/-- The elliptic curves bound to the ECDSA algorithms (`elliptic.Curve`). -/
inductive Curve where
  | p256
  | p384
  | p521
  deriving DecidableEq

/-- `Curve.Params().BitSize` for the three curves. -/
def Curve.bitSize : Curve → Nat
  | .p256 => 256
  | .p384 => 384
  | .p521 => 521

-- ---------------------------------------------------------------------------
-- common_headers.go
-- ---------------------------------------------------------------------------

/-- `getIDByStringName` (common_headers.go): label string to CBOR tag. -/
def getIDByStringName (name : String) : Except GoError Int :=
  if name = "alg" then .ok 1
  else if name = "crit" then .ok 2
  else if name = "content type" then .ok 3
  else if name = "kid" then .ok 4
  else if name = "IV" then .ok 5
  else if name = "Partial IV" then .ok 6
  else if name = "counter signature" then .ok 7
  else .error .errMissingCOSETagForLabel

/-- `getNameByIntTag` (common_headers.go): CBOR tag (dynamic type `int`) to
label. -/
def getNameByIntTag (tag : Int) : Except GoError String :=
  if tag = 1 then .ok "alg"
  else if tag = 2 then .ok "crit"
  else if tag = 3 then .ok "content type"
  else if tag = 4 then .ok "kid"
  else if tag = 5 then .ok "IV"
  else if tag = 6 then .ok "Partial IV"
  else if tag = 7 then .ok "counter signature"
  else .error .errMissingCOSETagForTag

-- ---------------------------------------------------------------------------
-- The algorithm registry (AlgID/AlgName lookups)
-- ---------------------------------------------------------------------------

/-- `getAlgIDByNameString`: IANA algorithm name to `AlgID`
(only the four signing algorithms are in the table). -/
def getAlgIDByNameString (name : String) : Except GoError Int :=
  if name = "PS256" then .ok (-37)
  else if name = "ES256" then .ok (-7)
  else if name = "ES384" then .ok (-35)
  else if name = "ES512" then .ok (-36)
  else .error .errAlgNotFound

/-- `getAlgIDByInt`: IANA algorithm value (as an `int`) to `AlgID`. -/
def getAlgIDByInt (id : Int) : Except GoError Int :=
  if id = -37 then .ok (-37)
  else if id = -36 then .ok (-36)
  else if id = -35 then .ok (-35)
  else if id = -7 then .ok (-7)
  else .error .errAlgNotFound

/-- `getAlgNameByInt`: IANA algorithm value to `AlgName`. -/
def getAlgNameByInt (id : Int) : Except GoError String :=
  if id = -37 then .ok "PS256"
  else if id = -36 then .ok "ES512"
  else if id = -35 then .ok "ES384"
  else if id = -7 then .ok "ES256"
  else .error .errAlgNotFound

/-- `getSigningAlgHashFuncByID`: hash function bound to a signing `AlgID`. -/
def getSigningAlgHashFuncByID (id : Int) : Except GoError Hash :=
  if id = -37 then .ok .sha256
  else if id = -7 then .ok .sha256
  else if id = -35 then .ok .sha384
  else if id = -36 then .ok .sha512
  else .error .errAlgNotFound

/-- `getCurveForAlgID` (ECDSA implementation): curve bound to an `AlgID`. -/
def getCurveForAlgID (id : Int) : Except GoError Curve :=
  if id = -7 then .ok .p256
  else if id = -35 then .ok .p384
  else if id = -36 then .ok .p521
  else .error .errAlgNotFound

/-- `getKeySizeForAlgID` (ECDSA implementation): fixed encoded-integer byte
width of an ECDSA `AlgID`. -/
def getKeySizeForAlgID (id : Int) : Except GoError Nat :=
  if id = -7 then .ok 32
  else if id = -35 then .ok 48
  else if id = -36 then .ok 66
  else .error .errAlgNotFound

-- ---------------------------------------------------------------------------
-- headers.go: header maps, compression, Get, Algorithm
-- ---------------------------------------------------------------------------

/-- A Go `map[interface{}]interface{}`, as an association list (Go guarantees
at most one entry per key; iteration order is taken to be the list order). -/
abbrev HeaderMap := List (GoValue × GoValue)

deriving instance DecidableEq for Except

/-- The protected/unprotected bucket pair (`Headers`). Each bucket is a
nilable Go map. -/
structure Headers where
  Protected : Option HeaderMap
  Unprotected : Option HeaderMap
  deriving DecidableEq

/-- Go map indexing `m[k]` (nil map reads as empty). -/
def lookupGo : List (GoValue × GoValue) → GoValue → Option GoValue
  | [], _ => none
  | (k, v) :: rest, key => if k = key then some v else lookupGo rest key

/-- Loop body of `CompressHeaders` (headers.go): a recognized string label
key is replaced with its `CommonHeaderID` tag, and for the `alg` label a
recognized algorithm-name string value is replaced with its `AlgID`.
Everything else passes through unchanged. -/
def compressEntry : GoValue × GoValue → GoValue × GoValue
  | (GoValue.str kstr, v) =>
    match getIDByStringName kstr with
    | .ok tag =>
      if kstr = "alg" then
        match v with
        | GoValue.str vstr =>
          match getAlgIDByNameString vstr with
          | .ok a => (GoValue.chID tag, GoValue.algID a)
          | .error _ => (GoValue.chID tag, GoValue.str vstr)
        | _ => (GoValue.chID tag, v)
      else (GoValue.chID tag, v)
    | .error _ => (GoValue.str kstr, v)
  | (k, v) => (k, v)

/-- Go map assignment `m[k] = v` on an association list: the pair replaces
an existing binding of the same key in place, or is appended; later writes
to the same key win, exactly as in a Go map. -/
def insertGo : HeaderMap → GoValue × GoValue → HeaderMap
  | [], e => [e]
  | (k', v') :: rest, e =>
    if k' = e.1 then e :: rest else (k', v') :: insertGo rest e

/-- `CompressHeaders` (headers.go): rewrite every entry with `compressEntry`
and assign it into a fresh map (`compressed[k] = v`), so an entry whose
rewritten key collides with an earlier output entry's key overwrites it
(last write wins, with the model's iteration order being the list order). -/
def CompressHeaders (headers : HeaderMap) : HeaderMap :=
  List.foldl (fun compressed e => insertGo compressed (compressEntry e)) [] headers

/-- Loop body of `DecompressHeaders` (headers.go): a key whose dynamic type
is `int` and which is a recognized tag is replaced with its
`CommonHeaderName` label; for the `alg` tag a value of dynamic type
`CommonHeaderID` is replaced with its `AlgName`. Everything else passes
through unchanged. -/
def decompressEntry : GoValue × GoValue → GoValue × GoValue
  | (GoValue.int kint, v) =>
    match getNameByIntTag kint with
    | .ok label =>
      match v with
      | GoValue.chID vint =>
        if label = "alg" then
          match getAlgNameByInt vint with
          | .ok nm => (GoValue.chName label, GoValue.algName nm)
          | .error _ => (GoValue.chName label, GoValue.chID vint)
        else (GoValue.chName label, GoValue.chID vint)
      | _ => (GoValue.chName label, v)
    | .error _ => (GoValue.int kint, v)
  | (k, v) => (k, v)

/-- `DecompressHeaders` (headers.go): rewrite every entry with
`decompressEntry` and assign it into a fresh map, with the same
last-write-wins collision behaviour as `CompressHeaders`. -/
def DecompressHeaders (headers : HeaderMap) : HeaderMap :=
  List.foldl (fun decompressed e => insertGo decompressed (decompressEntry e)) [] headers

/-- `getFromMap` (headers.go): its type switch has identical found/not-found
behaviour in every branch, so it reduces to a map lookup; a miss returns the
`ErrKeyNotFound` cause (the `errors.Wrapf` wrapping preserves the cause and
only the cause is ever inspected, so the wrapper is dropped). Returned as a
Go-style `(value, error)` pair. -/
def getFromMap (headerMap : Option HeaderMap) (key : GoValue) :
    Option GoValue × Option GoError :=
  match lookupGo (headerMap.getD []) key with
  | some v => (some v, none)
  | none => (none, some GoError.errKeyNotFound)

/-- `Headers.Get` (headers.go): probe the protected then the unprotected
bucket; both missing is `ErrKeyNotFound`, both present is the ambiguous-key
error, exactly one present returns that value. The two leading guards of the
source (propagating a non-`ErrKeyNotFound` error) are kept even though
`getFromMap` can only fail with `ErrKeyNotFound`. -/
def Headers.Get (h : Headers) (key : GoValue) : Option GoValue × Option GoError :=
  let pro := getFromMap h.Protected key
  let unpro := getFromMap h.Unprotected key
  if ¬(pro.2 = none ∨ pro.2 = some GoError.errKeyNotFound) then (none, pro.2)
  else if ¬(unpro.2 = none ∨ unpro.2 = some GoError.errKeyNotFound) then (none, unpro.2)
  else if pro.2 = some GoError.errKeyNotFound ∧ unpro.2 = some GoError.errKeyNotFound then
    (none, some GoError.errKeyNotFound)
  else if pro.2 ≠ some GoError.errKeyNotFound ∧ unpro.2 ≠ some GoError.errKeyNotFound then
    (none, some GoError.errAmbiguousKey)
  else if pro.2 = some GoError.errKeyNotFound ∧ unpro.2 ≠ some GoError.errKeyNotFound then
    (unpro.1, none)
  else if pro.2 ≠ some GoError.errKeyNotFound ∧ unpro.2 = some GoError.errKeyNotFound then
    (pro.1, none)
  else (none, none)

/-- The in-place normalization performed by `Headers.Algorithm`:
`h.Protected = CompressHeaders(h.Protected); h.Unprotected = ...`
(a nil bucket is ranged over as empty and becomes a fresh empty map). -/
def normalizeHeaders (h : Headers) : Headers :=
  { Protected := some (CompressHeaders (h.Protected.getD []))
    Unprotected := some (CompressHeaders (h.Unprotected.getD [])) }

/-- The three key representations probed by `Headers.Algorithm`:
`CommonHeaderIDAlg`, `int(CommonHeaderIDAlg)`, `uint64(CommonHeaderIDAlg)`. -/
def algProbeTypes : List GoValue :=
  [GoValue.chID 1, GoValue.int 1, GoValue.uint64 1]

/-- The probe loop of `Headers.Algorithm`: `v, err = h.Get(t)` for each type
in order, breaking on the first success; if every probe fails, `v` is left
as the last (nil) value. -/
def probeAlg (h : Headers) : List GoValue → Option GoValue
  | [] => none
  | t :: ts =>
    match h.Get t with
    | (v, none) => v
    | (_, some _) => probeAlg h ts

/-- Go conversion `int(u)` of a `uint64` on a 64-bit platform. -/
def toSigned64 (n : Nat) : Int :=
  let r : Nat := n % 2 ^ 64
  if r < 2 ^ 63 then (r : Int) else (r : Int) - 2 ^ 64

/-- `Headers.Algorithm` (headers.go): nil receiver fails with
`ErrAlgNotFound`; otherwise both buckets are compressed **in place**, the
algorithm slot is probed under the three key representations, and the found
value is resolved by its dynamic type (string / uint64 / int64 / int; any
other type, including the `AlgID` produced by compression itself, falls to
the default branch). Returns the Go `(id, err)` result together with the
updated (mutated) headers. -/
def Headers.Algorithm : Option Headers → (Except GoError Int) × Option Headers
  | none => (.error .errAlgNotFound, none)
  | some h =>
    let h' := normalizeHeaders h
    let v := probeAlg h' algProbeTypes
    let res : Except GoError Int :=
      match v with
      | some (GoValue.str s) =>
        match getAlgIDByNameString s with
        | .ok a => .ok a
        | .error _ => .error .errAlgNotFound
      | some (GoValue.uint64 n) =>
        match getAlgIDByInt (toSigned64 n) with
        | .ok a => .ok a
        | .error _ => .error .errAlgNotFound
      | some (GoValue.int64 n) =>
        match getAlgIDByInt n with
        | .ok a => .ok a
        | .error _ => .error .errAlgNotFound
      | some (GoValue.int n) =>
        match getAlgIDByInt n with
        | .ok a => .ok a
        | .error _ => .error .errAlgNotFound
      | _ => .error .errAlgNotFound
    (res, some h')

-- ---------------------------------------------------------------------------
-- signature.go / sign_verify.go: Signature, SignMessage, Sign, Verify
-- ---------------------------------------------------------------------------

/-- `Signature`: per-signer headers plus the signature byte string
(nil until Sign succeeds). -/
structure Signature where
  Headers : Option Headers
  SignatureBytes : Option (List Nat)
  deriving DecidableEq

/-- `SignMessage`: body headers, nilable payload, nilable signature list. -/
structure SignMessage where
  Headers : Option Headers
  Payload : Option (List Nat)
  Signatures : Option (List Signature)
  deriving DecidableEq

/-- The external collaborators of the protocol: the CBOR encoder (used on a
compressed protected-header map, and on the 5-element `Sig_structure`
sequence whose context string is always `"Signature"` here) and the runtime
hash registry. All are opaque. -/
structure Env where
  marshalMap : HeaderMap → Except GoError (List Nat)
  marshalSigStructure : List Nat → List Nat → List Nat → Option (List Nat) →
    Except GoError (List Nat)
  hashAvailable : Hash → Bool
  hashBytes : Hash → List Nat → List Nat

/-- A `MessageSigner`: its declared `AlgID` and its opaque `Sign(rand,
digest)` operation (the random source is folded into the function). -/
structure MessageSigner where
  algorithm : Int
  sign : List Nat → Except GoError (List Nat)

/-- A `MessageVerifier`: `Verify` only calls its `Verify(digest,
signatureBytes)` operation (`none` = success, as a nil Go error). -/
structure MessageVerifier where
  verify : List Nat → List Nat → Option GoError

/-- `Headers.EncodeProtected` (headers.go): nil receiver panics; a nil or
empty protected bucket encodes as the empty byte string; otherwise the
compressed bucket is marshalled, and a marshal error is a `log.Fatalf`
abort. -/
def encodeProtected (env : Env) (h : Option Headers) : Outcome (List Nat) :=
  match h with
  | none => .goPanic .encodeNilHeaders
  | some hd =>
    match hd.Protected with
    | none => .ok []
    | some p =>
      if p.length < 1 then .ok []
      else
        match env.marshalMap (CompressHeaders p) with
        | .ok bs => .ok bs
        | .error _ => .goPanic .marshalFatal

/-- `SignMessage.SignatureDigest` (via `SigStructure` and
`buildAndMarshalSigStructure`): marshal the Sig_structure from the encoded
body/signature protected headers, external AAD and payload, then resolve the
signature's algorithm (mutating its headers again), its hash function, and
hash. Returns the digest plus the updated signature. -/
def signatureDigest (env : Env) (mh : Option Headers) (payload : Option (List Nat))
    (external : List Nat) (sig : Signature) : Outcome (List Nat) × Signature :=
  match encodeProtected env mh with
  | .goPanic p => (.goPanic p, sig)
  | .err e => (.err e, sig)
  | .ok bodyProtected =>
    match encodeProtected env sig.Headers with
    | .goPanic p => (.goPanic p, sig)
    | .err e => (.err e, sig)
    | .ok signProtected =>
      match env.marshalSigStructure bodyProtected signProtected external payload with
      | .error _ => (.err .errMarshalingSigStructure, sig)
      | .ok toBeSigned =>
        match Headers.Algorithm sig.Headers with
        | (res, h') =>
          let sig1 : Signature := { sig with Headers := h' }
          match res with
          | .error e => (.err e, sig1)
          | .ok aid =>
            match getSigningAlgHashFuncByID aid with
            | .error e => (.err e, sig1)
            | .ok hf =>
              if env.hashAvailable hf then (.ok (env.hashBytes hf toBeSigned), sig1)
              else (.err .errUnavailableHashFunc, sig1)

/-- Per-index body of `SignMessage.Sign`: nil-header and nil-protected
checks, the already-signed check, algorithm resolution (mutating), the
layering guard (`algID > -1`), digest computation, the signer/signature
algorithm match, and delegation to the signer. Returns the produced
signature bytes plus the updated signature. -/
def signOne (env : Env) (mh : Option Headers) (payload : Option (List Nat))
    (external : List Nat) (signer : MessageSigner) (i : Nat) (sig : Signature) :
    Outcome (List Nat) × Signature :=
  match sig.Headers with
  | none => (.err .errNilSigHeader, sig)
  | some hd =>
    match hd.Protected with
    | none => (.err .errNilSigProtectedHeaders, sig)
    | some _ =>
      if sig.SignatureBytes ≠ none ∨ 0 < (sig.SignatureBytes.getD []).length then
        (.err (.errAlreadyHasSignatureBytes i), sig)
      else
        match Headers.Algorithm sig.Headers with
        | (res, h') =>
          let sig1 : Signature := { sig with Headers := h' }
          match res with
          | .error e => (.err e, sig1)
          | .ok algID =>
            if algID > -1 then (.err .errInvalidAlg, sig1)
            else
              match signatureDigest env mh payload external sig1 with
              | (.goPanic p, sig2) => (.goPanic p, sig2)
              | (.err e, sig2) => (.err e, sig2)
              | (.ok digest, sig2) =>
                if algID ≠ signer.algorithm then
                  (.err (.errWrongSignerForSignature signer.algorithm algID), sig2)
                else
                  match signer.sign digest with
                  | .error e => (.err e, sig2)
                  | .ok signatureBytes => (.ok signatureBytes, sig2)

/-- The `for i, signature := range m.Signatures` loop of `Sign`: sequential,
aborting on the first failure without rolling back earlier indices; a
successful index stores the returned bytes into `Signatures[i]`. -/
def signLoop (env : Env) (mh : Option Headers) (payload : Option (List Nat))
    (external : List Nat) : List (Signature × MessageSigner) → Nat →
    Outcome Unit × List Signature
  | [], _ => (.ok (), [])
  | (sig, sgr) :: rest, i =>
    match signOne env mh payload external sgr i sig with
    | (.ok signatureBytes, sig') =>
      match signLoop env mh payload external rest (i + 1) with
      | (r, sigs') => (r, { sig' with SignatureBytes := some signatureBytes } :: sigs')
    | (.err e, sig') => (.err e, sig' :: List.map Prod.fst rest)
    | (.goPanic p, sig') => (.goPanic p, sig' :: List.map Prod.fst rest)

/-- `SignMessage.Sign` (the `rand io.Reader` argument is folded into each
signer's opaque `sign`): nil-signatures, no-signatures and count-mismatch
preconditions, then the per-index loop. -/
def SignMessage.Sign (m : SignMessage) (env : Env) (external : List Nat)
    (signers : List MessageSigner) : Outcome Unit × SignMessage :=
  match m.Signatures with
  | none => (.err .errNilSignatures, m)
  | some sigs =>
    if sigs.length < 1 then (.err .errNoSignatures, m)
    else if sigs.length ≠ signers.length then
      (.err (.errSignersForSignatures signers.length sigs.length), m)
    else
      match signLoop env m.Headers m.Payload external (sigs.zip signers) 0 with
      | (r, sigs') => (r, { m with Signatures := some sigs' })

/-- Per-index body of `SignMessage.Verify`: nil-header and nil-protected
checks, the missing-signature-bytes check, algorithm resolution (mutating),
the layering guard, digest computation, then `verifiers[i]` — read without
any bounds check, so a short verifier list is a runtime index-out-of-range
abort — and delegation to that verifier. -/
def verifyOne (env : Env) (mh : Option Headers) (payload : Option (List Nat))
    (external : List Nat) (verifiers : List MessageVerifier) (i : Nat)
    (sig : Signature) : Outcome Unit × Signature :=
  match sig.Headers with
  | none => (.err .errNilSigHeader, sig)
  | some hd =>
    match hd.Protected with
    | none => (.err .errNilSigProtectedHeaders, sig)
    | some _ =>
      if sig.SignatureBytes = none ∨ (sig.SignatureBytes.getD []).length < 1 then
        (.err (.errMissingSignatureBytes i), sig)
      else
        match Headers.Algorithm sig.Headers with
        | (res, h') =>
          let sig1 : Signature := { sig with Headers := h' }
          match res with
          | .error e => (.err e, sig1)
          | .ok algID =>
            if algID > -1 then (.err .errInvalidAlg, sig1)
            else
              match signatureDigest env mh payload external sig1 with
              | (.goPanic p, sig2) => (.goPanic p, sig2)
              | (.err e, sig2) => (.err e, sig2)
              | (.ok digest, sig2) =>
                match verifiers[i]? with
                | none => (.goPanic .indexOutOfRange, sig2)
                | some vf =>
                  match vf.verify digest (sig2.SignatureBytes.getD []) with
                  | some e => (.err e, sig2)
                  | none => (.ok (), sig2)

/-- The `for i, signature := range m.Signatures` loop of `Verify`:
short-circuits on the first failure. -/
def verifyLoop (env : Env) (mh : Option Headers) (payload : Option (List Nat))
    (external : List Nat) (verifiers : List MessageVerifier) :
    List Signature → Nat → Outcome Unit × List Signature
  | [], _ => (.ok (), [])
  | sig :: rest, i =>
    match verifyOne env mh payload external verifiers i sig with
    | (.ok _, sig') =>
      match verifyLoop env mh payload external verifiers rest (i + 1) with
      | (r, sigs') => (r, sig' :: sigs')
    | (.err e, sig') => (.err e, sig' :: rest)
    | (.goPanic p, sig') => (.goPanic p, sig' :: rest)

/-- `SignMessage.Verify`: a nil or empty signature list verifies trivially;
otherwise the per-index loop runs. Note: unlike `Sign`, there is no
signature/verifier count precondition. -/
def SignMessage.Verify (m : SignMessage) (env : Env) (external : List Nat)
    (verifiers : List MessageVerifier) : Outcome Unit × SignMessage :=
  match m.Signatures with
  | none => (.ok (), m)
  | some sigs =>
    if sigs.length < 1 then (.ok (), m)
    else
      match verifyLoop env m.Headers m.Payload external verifiers sigs 0 with
      | (r, sigs') => (r, { m with Signatures := some sigs' })

-- ---------------------------------------------------------------------------
-- core.go / ECDSA signer and verifier (algorithms.go)
-- ---------------------------------------------------------------------------

/-- `big.Int.Bytes()`: the minimal big-endian byte representation (empty for
zero). -/
def bigIntBytes (b : Nat) : List Nat :=
  (Nat.digits 256 b).reverse

/-- `I2OSP` (core.go): left-pad with zero bytes up to length `n`, but
truncate to the first `n` bytes when the representation is longer. -/
def I2OSP (b : Nat) (n : Nat) : List Nat :=
  let os := bigIntBytes b
  if n > os.length then List.replicate (n - os.length) 0 ++ os
  else os.take n

/-- `keyBytes` computed inside `ECDSASigner.Sign`:
`curveBits / 8`, plus one when `curveBits % 8 > 0`. -/
def keyBytesForBits (curveBits : Nat) : Nat :=
  let kb := curveBits / 8
  if curveBits % 8 > 0 then kb + 1 else kb

/-- `ECDSASigner`: its `AlgID` and the curve of its private key (the key
material itself is opaque and never inspected by the modelled code). -/
structure ECDSASigner where
  algID : Int
  curve : Curve
  deriving DecidableEq

/-- `ECDSASigner.Sign` (algorithms.go): the two integers `R`, `S` produced
by the opaque `ecdsa.Sign` are each encoded with `I2OSP` at the width
derived from the private key's curve bit size, then concatenated. -/
def ECDSASigner.Sign (s : ECDSASigner) (R S : Nat) : List Nat :=
  let n := keyBytesForBits s.curve.bitSize
  I2OSP R n ++ I2OSP S n

/-- `big.Int.SetBytes`: big-endian bytes to an unsigned integer. -/
def bytesToNat (bs : List Nat) : Nat :=
  bs.foldl (fun acc b => acc * 256 + b) 0

/-- `ECDSAVerifier`: only its `AlgID` is inspected by `Verify`; the public
key is folded into the opaque curve-verification predicate. -/
structure ECDSAVerifier where
  algID : Int
  deriving DecidableEq

/-- `ECDSAVerifier.Verify` (algorithms.go): key-size lookup, the (dead)
`keySize < 1` guard, the signature-length check, the even split into two
big-endian integers, and the opaque `ecdsa.Verify` call
(`ecdsaVerifyFn digest r s`); a `false` verdict is the single
`ErrECDSAVerification` error. -/
def ECDSAVerifier.Verify (ecdsaVerifyFn : List Nat → Nat → Nat → Bool)
    (v : ECDSAVerifier) (digest : List Nat) (signature : List Nat) : Option GoError :=
  match getKeySizeForAlgID v.algID with
  | .error e => some e
  | .ok keySize =>
    if keySize < 1 then some GoError.errNoKeySize
    else if signature.length ≠ 2 * keySize then
      some (GoError.errInvalidSignatureLength signature.length)
    else
      let r := bytesToNat (signature.take keySize)
      let s := bytesToNat (signature.drop keySize)
      if ecdsaVerifyFn digest r s then none else some GoError.errECDSAVerification

-- ---------------------------------------------------------------------------
-- Derived predicates and concrete instances used by the statements below
-- ---------------------------------------------------------------------------

/-- A key that `CompressHeaders` recognizes: a value of dynamic type `string`
naming one of the seven common headers. -/
def isCompressRecognizedKey (k : GoValue) : Bool :=
  match k with
  | GoValue.str s =>
    match getIDByStringName s with
    | .ok _ => true
    | .error _ => false
  | _ => false

/-- A key that `DecompressHeaders` recognizes: a value of dynamic type `int`
equal to one of the seven common-header tags. -/
def isDecompressRecognizedKey (k : GoValue) : Bool :=
  match k with
  | GoValue.int n =>
    match getNameByIntTag n with
    | .ok _ => true
    | .error _ => false
  | _ => false

/-- How `Verify` may change one signature: the signature bytes are untouched
and the headers are either untouched or replaced by their compressed
(normalized) form. -/
def sigPreserved (s s' : Signature) : Prop :=
  s'.SignatureBytes = s.SignatureBytes ∧
  (s'.Headers = s.Headers ∨
    ∃ hd, s.Headers = some hd ∧ s'.Headers = some (normalizeHeaders hd))

/-- A concrete, total instance of the opaque collaborators (a stub codec and
hash), used to evaluate the model on closed inputs. -/
def env0 : Env :=
  { marshalMap := fun _ => .ok []
    marshalSigStructure := fun _ _ _ _ => .ok []
    hashAvailable := fun _ => true
    hashBytes := fun _ _ => [] }

/-- A concrete ES256 signer stub. -/
def signer0 : MessageSigner :=
  { algorithm := -7, sign := fun _ => .ok [0] }

/-- A concrete always-accepting verifier stub. -/
def verifier0 : MessageVerifier :=
  { verify := fun _ _ => none }

/-- A signature whose protected headers declare the algorithm slot
(`int` key `1`) with the `int` value `n`. -/
def sigDecl (n : Int) (bs : Option (List Nat)) : Signature :=
  { Headers := some { Protected := some [(GoValue.int 1, GoValue.int n)]
                      Unprotected := some [] }
    SignatureBytes := bs }

/-- A one-signature message whose signature declares algorithm value `n`. -/
def msgDecl (mh : Option Headers) (payload : Option (List Nat)) (n : Int)
    (bs : Option (List Nat)) : SignMessage :=
  { Headers := mh, Payload := payload, Signatures := some [sigDecl n bs] }

/-- A well-formed signed message (one ES256 signature with signature bytes
present), used to drive `Verify` into its per-index loop. -/
def msgSigned : SignMessage :=
  msgDecl (some { Protected := some [], Unprotected := some [] }) (some [1, 2])
    (-7) (some [1])

/-- A message whose single signature declares `alg` by its human-readable
string label, as built by a caller before signing. -/
def msgLabeled : SignMessage :=
  { Headers := some { Protected := some [], Unprotected := some [] }
    Payload := some [1, 2]
    Signatures := some
      [{ Headers := some { Protected := some [(GoValue.str "alg", GoValue.str "ES256")]
                           Unprotected := some [] }
         SignatureBytes := some [1] }] }

-- ---------------------------------------------------------------------------
-- Helper lemmas
-- ---------------------------------------------------------------------------

theorem sigPreserved_refl (s : Signature) : sigPreserved s s :=
  ⟨rfl, Or.inl rfl⟩

theorem compressEntry_chID (n : Int) (v : GoValue) :
    compressEntry (GoValue.chID n, v) = (GoValue.chID n, v) := rfl

theorem compressEntry_str_char (s : String) (v : GoValue) :
    (∃ tag v', getIDByStringName s = .ok tag ∧
      compressEntry (GoValue.str s, v) = (GoValue.chID tag, v')) ∨
    (compressEntry (GoValue.str s, v) = (GoValue.str s, v)) := by
  rcases h : getIDByStringName s with e' | tag
  · refine Or.inr ?_
    simp [compressEntry, h]
  · refine Or.inl ?_
    by_cases hs : s = "alg"
    · subst hs
      cases v with
      | str vs =>
        rcases h2 : getAlgIDByNameString vs with e2 | a
        · exact ⟨tag, GoValue.str vs, rfl, by simp [compressEntry, h, h2]⟩
        · exact ⟨tag, GoValue.algID a, rfl, by simp [compressEntry, h, h2]⟩
      | int n => exact ⟨tag, GoValue.int n, rfl, by simp [compressEntry, h]⟩
      | int64 n => exact ⟨tag, GoValue.int64 n, rfl, by simp [compressEntry, h]⟩
      | uint64 n => exact ⟨tag, GoValue.uint64 n, rfl, by simp [compressEntry, h]⟩
      | chID n => exact ⟨tag, GoValue.chID n, rfl, by simp [compressEntry, h]⟩
      | chName s2 => exact ⟨tag, GoValue.chName s2, rfl, by simp [compressEntry, h]⟩
      | algID n => exact ⟨tag, GoValue.algID n, rfl, by simp [compressEntry, h]⟩
      | algName s2 => exact ⟨tag, GoValue.algName s2, rfl, by simp [compressEntry, h]⟩
      | bytes bs => exact ⟨tag, GoValue.bytes bs, rfl, by simp [compressEntry, h]⟩
      | boolean b => exact ⟨tag, GoValue.boolean b, rfl, by simp [compressEntry, h]⟩
      | null => exact ⟨tag, GoValue.null, rfl, by simp [compressEntry, h]⟩
    · exact ⟨tag, v, rfl, by simp [compressEntry, h, hs]⟩

theorem compressEntry_idem (e : GoValue × GoValue) :
    compressEntry (compressEntry e) = compressEntry e := by
  obtain ⟨k, v⟩ := e
  cases k with
  | str s =>
    rcases compressEntry_str_char s v with ⟨tag, v', _, h2⟩ | h2
    · rw [h2, compressEntry_chID]
    · rw [h2, h2]
  | int n => rfl
  | int64 n => rfl
  | uint64 n => rfl
  | chID n => rfl
  | chName s => rfl
  | algID n => rfl
  | algName s => rfl
  | bytes bs => rfl
  | boolean b => rfl
  | null => rfl

theorem mem_insertGo_self (m : HeaderMap) (e : GoValue × GoValue) :
    e ∈ insertGo m e := by
  induction m with
  | nil => exact List.mem_singleton.2 rfl
  | cons p rest ih =>
    obtain ⟨k', v'⟩ := p
    by_cases h : k' = e.1
    · simp [insertGo, h]
    · simp only [insertGo, if_neg h]
      exact List.mem_cons_of_mem _ ih

theorem mem_insertGo_of_ne (m : HeaderMap) (e x : GoValue × GoValue)
    (hx : x ∈ m) (hne : x.1 ≠ e.1) : x ∈ insertGo m e := by
  induction m with
  | nil => cases hx
  | cons p rest ih =>
    obtain ⟨k', v'⟩ := p
    by_cases h : k' = e.1
    · simp only [insertGo, if_pos h]
      rcases List.mem_cons.1 hx with rfl | hx'
      · exact absurd h hne
      · exact List.mem_cons_of_mem _ hx'
    · simp only [insertGo, if_neg h]
      rcases List.mem_cons.1 hx with rfl | hx'
      · exact List.mem_cons_self _ _
      · exact List.mem_cons_of_mem _ (ih hx')

theorem mem_of_mem_insertGo (m : HeaderMap) (e x : GoValue × GoValue)
    (hx : x ∈ insertGo m e) : x ∈ m ∨ x = e := by
  induction m with
  | nil =>
    simp only [insertGo] at hx
    exact Or.inr (List.mem_singleton.1 hx)
  | cons p rest ih =>
    obtain ⟨k', v'⟩ := p
    by_cases h : k' = e.1
    · simp only [insertGo, if_pos h] at hx
      rcases List.mem_cons.1 hx with rfl | hx'
      · exact Or.inr rfl
      · exact Or.inl (List.mem_cons_of_mem _ hx')
    · simp only [insertGo, if_neg h] at hx
      rcases List.mem_cons.1 hx with rfl | hx'
      · exact Or.inl (List.mem_cons_self _ _)
      · rcases ih hx' with h1 | h1
        · exact Or.inl (List.mem_cons_of_mem _ h1)
        · exact Or.inr h1

theorem key_mem_of_key_mem_insertGo (m : HeaderMap) (e : GoValue × GoValue)
    (x : GoValue) (hx : x ∈ List.map Prod.fst (insertGo m e)) :
    x = e.1 ∨ x ∈ List.map Prod.fst m := by
  rcases List.mem_map.1 hx with ⟨p, hp, rfl⟩
  rcases mem_of_mem_insertGo m e p hp with h | rfl
  · exact Or.inr (List.mem_map_of_mem Prod.fst h)
  · exact Or.inl rfl

theorem nodup_keys_insertGo (m : HeaderMap) (e : GoValue × GoValue)
    (hm : (List.map Prod.fst m).Nodup) :
    (List.map Prod.fst (insertGo m e)).Nodup := by
  induction m with
  | nil => simp [insertGo]
  | cons p rest ih =>
    obtain ⟨k', v'⟩ := p
    simp only [List.map_cons, List.nodup_cons] at hm
    by_cases h : k' = e.1
    · simp only [insertGo, if_pos h, List.map_cons, List.nodup_cons]
      exact ⟨h ▸ hm.1, hm.2⟩
    · simp only [insertGo, if_neg h, List.map_cons, List.nodup_cons]
      refine ⟨fun hmem => ?_, ih hm.2⟩
      rcases key_mem_of_key_mem_insertGo rest e k' hmem with h1 | h1
      · exact h h1
      · exact hm.1 h1

theorem insertGo_of_key_not_mem (m : HeaderMap) (e : GoValue × GoValue)
    (h : e.1 ∉ List.map Prod.fst m) : insertGo m e = m ++ [e] := by
  induction m with
  | nil => rfl
  | cons p rest ih =>
    obtain ⟨k', v'⟩ := p
    simp only [List.map_cons, List.mem_cons] at h
    push_neg at h
    simp only [insertGo, if_neg (Ne.symm h.1), List.cons_append]
    rw [ih h.2]

theorem foldl_insertGo_nodup_keys (f : GoValue × GoValue → GoValue × GoValue) :
    ∀ (l : HeaderMap) (acc : HeaderMap), (List.map Prod.fst acc).Nodup →
      (List.map Prod.fst (List.foldl (fun m e => insertGo m (f e)) acc l)).Nodup := by
  intro l
  induction l with
  | nil => intro acc hacc; exact hacc
  | cons e rest ih =>
    intro acc hacc
    rw [List.foldl_cons]
    exact ih _ (nodup_keys_insertGo acc (f e) hacc)

theorem mem_foldl_insertGo (f : GoValue × GoValue → GoValue × GoValue) :
    ∀ (l : HeaderMap) (acc : HeaderMap) (x : GoValue × GoValue),
      x ∈ List.foldl (fun m e => insertGo m (f e)) acc l →
      x ∈ acc ∨ ∃ e ∈ l, x = f e := by
  intro l
  induction l with
  | nil => intro acc x hx; exact Or.inl hx
  | cons e rest ih =>
    intro acc x hx
    rw [List.foldl_cons] at hx
    rcases ih _ x hx with h1 | ⟨e', he', rfl⟩
    · rcases mem_of_mem_insertGo acc (f e) x h1 with h2 | rfl
      · exact Or.inl h2
      · exact Or.inr ⟨e, List.mem_cons_self _ _, rfl⟩
    · exact Or.inr ⟨e', List.mem_cons_of_mem _ he', rfl⟩

theorem foldl_insertGo_fixed (f : GoValue × GoValue → GoValue × GoValue) :
    ∀ (l : HeaderMap) (acc : HeaderMap), (∀ e ∈ l, f e = e) →
      (List.map Prod.fst l).Nodup →
      (∀ x ∈ List.map Prod.fst acc, x ∉ List.map Prod.fst l) →
      List.foldl (fun m e => insertGo m (f e)) acc l = acc ++ l := by
  intro l
  induction l with
  | nil => intro acc _ _ _; simp
  | cons e rest ih =>
    intro acc hfix hnd hdisj
    simp only [List.map_cons, List.nodup_cons] at hnd
    rw [List.foldl_cons, hfix e (List.mem_cons_self _ _)]
    have hnotin : e.1 ∉ List.map Prod.fst acc := by
      intro hmem
      exact hdisj e.1 hmem (List.mem_cons_self _ _)
    rw [insertGo_of_key_not_mem acc e hnotin]
    rw [ih (acc ++ [e]) (fun e' he' => hfix e' (List.mem_cons_of_mem _ he')) hnd.2 ?_]
    · simp
    · intro x hx
      simp only [List.map_append, List.mem_append, List.map_cons, List.map_nil,
        List.mem_singleton] at hx
      rcases hx with hx | rfl
      · intro hmem
        exact hdisj x hx (List.mem_cons_of_mem _ hmem)
      · exact hnd.1

theorem CompressHeaders_idem (m : HeaderMap) :
    CompressHeaders (CompressHeaders m) = CompressHeaders m := by
  show List.foldl (fun c e => insertGo c (compressEntry e)) [] (CompressHeaders m) =
    CompressHeaders m
  rw [foldl_insertGo_fixed compressEntry (CompressHeaders m) []]
  · simp
  · intro e he
    rcases mem_foldl_insertGo compressEntry m [] e he with h | ⟨e0, _, rfl⟩
    · cases h
    · exact compressEntry_idem e0
  · exact foldl_insertGo_nodup_keys compressEntry m [] (by simp)
  · intro x hx
    cases hx

theorem normalizeHeaders_idem (h : Headers) :
    normalizeHeaders (normalizeHeaders h) = normalizeHeaders h := by
  unfold normalizeHeaders
  simp [CompressHeaders_idem]

theorem Algorithm_snd (h : Option Headers) :
    (Headers.Algorithm h).2 = Option.map normalizeHeaders h := by
  cases h <;> rfl

theorem signatureDigest_snd (env : Env) (mh : Option Headers)
    (payload : Option (List Nat)) (external : List Nat) (sig : Signature) :
    (signatureDigest env mh payload external sig).2 = sig ∨
    (signatureDigest env mh payload external sig).2 =
      { sig with Headers := Option.map normalizeHeaders sig.Headers } := by
  rcases h1 : encodeProtected env mh with b1 | e1 | p1
  · rcases h2 : encodeProtected env sig.Headers with b2 | e2 | p2
    · rcases h3 : env.marshalSigStructure b1 b2 external payload with e3 | tbs
      · simp [signatureDigest, h1, h2, h3]
      · rcases hA : Headers.Algorithm sig.Headers with ⟨res, h'⟩
        have hh' : h' = Option.map normalizeHeaders sig.Headers := by
          have hs := Algorithm_snd sig.Headers
          rw [hA] at hs
          exact hs
        cases res with
        | error e => simp [signatureDigest, h1, h2, h3, hA, hh']
        | ok aid =>
          rcases h4 : getSigningAlgHashFuncByID aid with e4 | hf
          · simp [signatureDigest, h1, h2, h3, hA, h4, hh']
          · by_cases h5 : env.hashAvailable hf = true <;>
              simp [signatureDigest, h1, h2, h3, hA, h4, h5, hh']
    · simp [signatureDigest, h1, h2]
    · simp [signatureDigest, h1, h2]
  · simp [signatureDigest, h1]
  · simp [signatureDigest, h1]

theorem verifyOne_pres (env : Env) (mh : Option Headers) (payload : Option (List Nat))
    (external : List Nat) (verifiers : List MessageVerifier) (i : Nat)
    (sig : Signature) :
    sigPreserved sig (verifyOne env mh payload external verifiers i sig).2 := by
  obtain ⟨sh, sb⟩ := sig
  cases sh with
  | none => exact sigPreserved_refl _
  | some hd =>
    cases hP : hd.Protected with
    | none =>
      simp [verifyOne, hP]
      exact sigPreserved_refl _
    | some p =>
      by_cases hB : sb = none ∨ sb.getD [] = []
      · simp [verifyOne, hP, hB]
        exact sigPreserved_refl _
      · rcases hA : Headers.Algorithm (some hd) with ⟨res, h'⟩
        have hh' : h' = some (normalizeHeaders hd) := by
          have hs := Algorithm_snd (some hd)
          rw [hA] at hs
          simpa using hs
        have hpres1 : sigPreserved ⟨some hd, sb⟩ ⟨h', sb⟩ :=
          ⟨rfl, Or.inr ⟨hd, rfl, by rw [hh']⟩⟩
        cases res with
        | error e =>
          simp [verifyOne, hP, hB, hA]
          exact hpres1
        | ok aid =>
          by_cases hG : (-1 : Int) < aid
          · simp [verifyOne, hP, hB, hA, hG]
            exact hpres1
          · rcases hD : signatureDigest env mh payload external ⟨h', sb⟩ with ⟨dres, sig2⟩
            have hsig2 : sig2 = (⟨h', sb⟩ : Signature) := by
              have hv := signatureDigest_snd env mh payload external ⟨h', sb⟩
              rw [hD] at hv
              rcases hv with hv | hv
              · exact hv
              · simp only [] at hv
                rw [hv, hh']
                simp [normalizeHeaders_idem]
            have hpres2 : sigPreserved ⟨some hd, sb⟩ sig2 := by
              rw [hsig2]
              exact hpres1
            cases dres with
            | goPanic p2 =>
              simp [verifyOne, hP, hB, hA, hG, hD]
              exact hpres2
            | err e =>
              simp [verifyOne, hP, hB, hA, hG, hD]
              exact hpres2
            | ok digest =>
              cases hV : verifiers[i]? with
              | none =>
                simp [verifyOne, hP, hB, hA, hG, hD, hV]
                exact hpres2
              | some vf =>
                cases hW : vf.verify digest (sig2.SignatureBytes.getD []) with
                | none =>
                  simp [verifyOne, hP, hB, hA, hG, hD, hV, hW]
                  exact hpres2
                | some e =>
                  simp [verifyOne, hP, hB, hA, hG, hD, hV, hW]
                  exact hpres2

theorem verifyLoop_pres (env : Env) (mh : Option Headers) (payload : Option (List Nat))
    (external : List Nat) (verifiers : List MessageVerifier) (sigs : List Signature) :
    ∀ i, List.Forall₂ sigPreserved sigs
      (verifyLoop env mh payload external verifiers sigs i).2 := by
  induction sigs with
  | nil =>
    intro i
    simp [verifyLoop]
  | cons sig rest ih =>
    intro i
    rcases hO : verifyOne env mh payload external verifiers i sig with ⟨o, sig'⟩
    have hpres : sigPreserved sig sig' := by
      have hv := verifyOne_pres env mh payload external verifiers i sig
      rw [hO] at hv
      exact hv
    cases o with
    | ok u =>
      rcases hL : verifyLoop env mh payload external verifiers rest (i + 1) with ⟨r, sigs'⟩
      have hrest : List.Forall₂ sigPreserved rest sigs' := by
        have hv := ih (i + 1)
        rw [hL] at hv
        exact hv
      simp [verifyLoop, hO, hL]
      exact ⟨hpres, hrest⟩
    | err e =>
      simp [verifyLoop, hO]
      exact ⟨hpres, fun x _ => sigPreserved_refl x⟩
    | goPanic p =>
      simp [verifyLoop, hO]
      exact ⟨hpres, fun x _ => sigPreserved_refl x⟩

theorem digits256_len_le {k n : Nat} (h : n < 256 ^ k) :
    (Nat.digits 256 n).length ≤ k := by
  induction k generalizing n with
  | zero =>
    simp only [pow_zero, Nat.lt_one_iff] at h
    simp [h]
  | succ k ih =>
    rcases Nat.eq_zero_or_pos n with rfl | hn
    · simp
    · rw [Nat.digits_def' (by norm_num : (1 : Nat) < 256) hn]
      simp only [List.length_cons]
      have hdiv : n / 256 < 256 ^ k := by
        rw [Nat.div_lt_iff_lt_mul (by norm_num : (0 : Nat) < 256)]
        calc n < 256 ^ (k + 1) := h
        _ = 256 ^ k * 256 := by rw [pow_succ]
      exact Nat.succ_le_succ (ih hdiv)

theorem bigIntBytes_len_le {k n : Nat} (h : n < 256 ^ k) :
    (bigIntBytes n).length ≤ k := by
  unfold bigIntBytes
  rw [List.length_reverse]
  exact digits256_len_le h

theorem I2OSP_pad {b n : Nat} (h : (bigIntBytes b).length ≤ n) :
    I2OSP b n = List.replicate (n - (bigIntBytes b).length) 0 ++ bigIntBytes b := by
  unfold I2OSP
  rcases lt_or_eq_of_le h with h' | h'
  · rw [if_pos h']
  · rw [if_neg (by omega)]
    rw [← h']
    simp

theorem I2OSP_len {b n : Nat} (h : (bigIntBytes b).length ≤ n) :
    (I2OSP b n).length = n := by
  rw [I2OSP_pad h]
  simp
  omega

-- ---------------------------------------------------------------------------
-- Claim theorems
-- ---------------------------------------------------------------------------

/-- Claim C10: a SignMessage whose Signatures list is nil or empty verifies
trivially — `Verify` returns success, leaves the message untouched, and does
no precondition, algorithm, or cryptographic work (the result does not depend
on the verifier list, the external AAD, or the collaborators). -/
theorem c10_verify_trivial (m : SignMessage) (env : Env) (external : List Nat)
    (verifiers : List MessageVerifier)
    (h : m.Signatures = none ∨ m.Signatures = some []) :
    SignMessage.Verify m env external verifiers = (.ok (), m) := by
  rcases h with h | h <;> simp [SignMessage.Verify, h]

/-- Witness for C10 at a concrete nil-signature message. -/
theorem c10_witness :
    SignMessage.Verify { Headers := none, Payload := none, Signatures := none }
      env0 [] [] = (.ok (), { Headers := none, Payload := none, Signatures := none }) :=
  c10_verify_trivial _ env0 [] [] (Or.inl rfl)

/-- Claim C7: `Sign` returns `ErrNilSignatures` on a nil signature list,
`ErrNoSignatures` on an empty one, and the count-mismatch error when the
signature and signer counts differ — in every case before any signer is
invoked (the result does not depend on the signers beyond their number) and
with the message returned unchanged (no SignatureBytes written). -/
theorem c7_sign_preconditions (m : SignMessage) (env : Env) (external : List Nat)
    (signers : List MessageSigner) :
    (m.Signatures = none →
      SignMessage.Sign m env external signers = (.err .errNilSignatures, m)) ∧
    (m.Signatures = some [] →
      SignMessage.Sign m env external signers = (.err .errNoSignatures, m)) ∧
    (∀ sigs, m.Signatures = some sigs → sigs ≠ [] → sigs.length ≠ signers.length →
      SignMessage.Sign m env external signers =
        (.err (.errSignersForSignatures signers.length sigs.length), m)) := by
  refine ⟨fun h => ?_, fun h => ?_, fun sigs h hne hlen => ?_⟩
  · simp [SignMessage.Sign, h]
  · simp [SignMessage.Sign, h]
  · have h1 : ¬sigs.length < 1 := by
      have := List.length_pos.2 hne
      omega
    simp [SignMessage.Sign, h, h1, hlen]

/-- Witness for C7 at a concrete two-signature, one-signer message. -/
theorem c7_witness :
    SignMessage.Sign
      { Headers := none, Payload := none,
        Signatures := some [sigDecl 1 none, sigDecl 2 none] }
      env0 [] [signer0] = (.err (.errSignersForSignatures 1 2),
      { Headers := none, Payload := none,
        Signatures := some [sigDecl 1 none, sigDecl 2 none] }) :=
  (c7_sign_preconditions _ env0 [] [signer0]).2.2 [sigDecl 1 none, sigDecl 2 none]
    rfl (by decide) (by decide)

/-- Claim C6: `Headers.Get` has exactly the three outcomes: `ErrKeyNotFound`
when the key is in neither bucket, the ambiguous-key error when it is in
both, and the unique stored value with a nil error when it is in exactly
one. -/
theorem c6_get_trichotomy (h : Headers) (key : GoValue) :
    Headers.Get h key =
      match lookupGo (h.Protected.getD []) key, lookupGo (h.Unprotected.getD []) key with
      | none, none => (none, some GoError.errKeyNotFound)
      | some _, some _ => (none, some GoError.errAmbiguousKey)
      | some v, none => (some v, none)
      | none, some v => (some v, none) := by
  unfold Headers.Get getFromMap
  cases hp : lookupGo (h.Protected.getD []) key <;>
    cases hu : lookupGo (h.Unprotected.getD []) key <;>
      simp [hp, hu]

/-- Claim C2 (failing evaluation): the compression round trip fails on the
recognized map `{"alg": "ES256"}` — `CompressHeaders` produces a
`CommonHeaderID`-typed key and an `AlgID`-typed value, which
`DecompressHeaders` (asserting the dynamic types `int` and `CommonHeaderID`)
passes through unchanged, so the round trip returns the compressed map, not
the original. -/
theorem c2_roundtrip_fails :
    DecompressHeaders (CompressHeaders [(GoValue.str "alg", GoValue.str "ES256")]) =
      [(GoValue.chID 1, GoValue.algID (-7))] ∧
    DecompressHeaders (CompressHeaders [(GoValue.str "alg", GoValue.str "ES256")]) ≠
      [(GoValue.str "alg", GoValue.str "ES256")] := by
  decide

/-- Claim C3 (failing evaluation): `Verify` performs no signature/verifier
count check — on a well-formed one-signature message with an empty verifier
list it reaches `verifiers[0]` and aborts with an index-out-of-range runtime
panic instead of returning a count-mismatch error, while `Sign` on the same
shape does return its count-mismatch error. -/
theorem c3_verify_counts_unchecked :
    (SignMessage.Verify msgSigned env0 [] []).1 = .goPanic .indexOutOfRange ∧
    (SignMessage.Sign
      (msgDecl (some { Protected := some [], Unprotected := some [] }) (some [1, 2])
        (-7) none) env0 [] []).1 = .err (.errSignersForSignatures 0 1) := by
  decide

/-- Claim C4 (counterexample): `Verify` mutates the message — on a message
whose signature declares `alg` by its string label, the signature's header
maps are replaced in place by their compressed forms (`Headers.Algorithm`
normalizes them) before `Verify` returns. -/
theorem c4_counterexample :
    (SignMessage.Verify msgLabeled env0 [] [verifier0]).2 ≠ msgLabeled ∧
    (SignMessage.Verify msgLabeled env0 [] [verifier0]).2.Signatures = some
      [{ Headers := some { Protected := some [(GoValue.chID 1, GoValue.algID (-7))]
                           Unprotected := some [] }
         SignatureBytes := some [1] }] := by
  decide

/-- Claim C1 (counterexample): a signature declaring the non-negative
algorithm ID 1 (IANA `A128GCM`) makes `Sign` and `Verify` fail with
`ErrAlgNotFound`, not `ErrInvalidAlg` — `Headers.Algorithm` cannot resolve
any non-negative ID, so the `algID > -1` layering guard never fires. -/
theorem c1_counterexample :
    (SignMessage.Sign (msgDecl none none 1 none) env0 [] [signer0]).1 =
      .err .errAlgNotFound ∧
    (SignMessage.Verify (msgDecl none none 1 (some [1])) env0 [] [verifier0]).1 =
      .err .errAlgNotFound ∧
    GoError.errAlgNotFound ≠ GoError.errInvalidAlg := by
  decide

/-- Claim C4 (amended): `Verify` leaves the message-level Headers, the
Payload, and every signature's SignatureBytes unchanged, and preserves the
signature list's shape; the only mutation is that a visited signature's
header maps may be replaced in place by their compressed (normalized) forms,
by `Headers.Algorithm`. -/
theorem c4_verify_frame (m : SignMessage) (env : Env) (external : List Nat)
    (verifiers : List MessageVerifier) :
    (SignMessage.Verify m env external verifiers).2.Headers = m.Headers ∧
    (SignMessage.Verify m env external verifiers).2.Payload = m.Payload ∧
    ((SignMessage.Verify m env external verifiers).2.Signatures).isSome =
      m.Signatures.isSome ∧
    List.Forall₂ sigPreserved (m.Signatures.getD [])
      (((SignMessage.Verify m env external verifiers).2.Signatures).getD []) := by
  cases hS : m.Signatures with
  | none =>
    simp [SignMessage.Verify, hS]
  | some sigs =>
    by_cases h1 : sigs.length < 1
    · have hnil : sigs = [] := List.length_eq_zero.1 (by omega)
      subst hnil
      simp [SignMessage.Verify, hS]
    · rcases hL : verifyLoop env m.Headers m.Payload external verifiers sigs 0
        with ⟨r, sigs'⟩
      have hrel : List.Forall₂ sigPreserved sigs sigs' := by
        have hv := verifyLoop_pres env m.Headers m.Payload external verifiers sigs 0
        rw [hL] at hv
        exact hv
      simp [SignMessage.Verify, hS, h1, hL]
      exact hrel

/-- Claim C5: a successful `ECDSASigner.Sign` (so `R` and `S` are reduced
modulo the curve group order, hence below `2 ^ bitSize`) returns exactly
`2 * keyBytes` bytes — 64 for ES256, 96 for ES384, 132 for ES512 — with each
integer encoded big-endian and left-padded with zero bytes to the fixed
width (never truncated, never variable-length). -/
theorem c5_fixed_width (sgr : ECDSASigner)
    (hc : getCurveForAlgID sgr.algID = .ok sgr.curve) (R S : Nat)
    (hR : R < 2 ^ sgr.curve.bitSize) (hS : S < 2 ^ sgr.curve.bitSize) :
    (ECDSASigner.Sign sgr R S).length = 2 * keyBytesForBits sgr.curve.bitSize ∧
    ECDSASigner.Sign sgr R S =
      (List.replicate (keyBytesForBits sgr.curve.bitSize - (bigIntBytes R).length) 0 ++
        bigIntBytes R) ++
      (List.replicate (keyBytesForBits sgr.curve.bitSize - (bigIntBytes S).length) 0 ++
        bigIntBytes S) ∧
    (sgr.algID = -7 → (ECDSASigner.Sign sgr R S).length = 64) ∧
    (sgr.algID = -35 → (ECDSASigner.Sign sgr R S).length = 96) ∧
    (sgr.algID = -36 → (ECDSASigner.Sign sgr R S).length = 132) := by
  obtain ⟨aid, c⟩ := sgr
  have hkey : ∀ X : Nat, X < 2 ^ c.bitSize →
      (bigIntBytes X).length ≤ keyBytesForBits c.bitSize := by
    cases c <;> intro X hX <;> exact bigIntBytes_len_le (lt_of_lt_of_le hX (by decide))
  have hRlen := hkey R hR
  have hSlen := hkey S hS
  have hlen : (ECDSASigner.Sign ⟨aid, c⟩ R S).length =
      2 * keyBytesForBits c.bitSize := by
    show (I2OSP R (keyBytesForBits c.bitSize) ++
      I2OSP S (keyBytesForBits c.bitSize)).length = _
    rw [List.length_append, I2OSP_len hRlen, I2OSP_len hSlen]
    omega
  refine ⟨hlen, ?_, ?_, ?_, ?_⟩
  · show I2OSP R (keyBytesForBits c.bitSize) ++ I2OSP S (keyBytesForBits c.bitSize) = _
    rw [I2OSP_pad hRlen, I2OSP_pad hSlen]
  · intro h
    subst h
    simp [getCurveForAlgID] at hc
    subst hc
    rw [hlen]
    decide
  · intro h
    subst h
    simp [getCurveForAlgID] at hc
    subst hc
    rw [hlen]
    decide
  · intro h
    subst h
    simp [getCurveForAlgID] at hc
    subst hc
    rw [hlen]
    decide

/-- Witness for C5 at a concrete ES256 signer with small `R`, `S`. -/
theorem c5_witness :
    (ECDSASigner.Sign { algID := -7, curve := Curve.p256 } 1 1).length = 64 := by
  have h := c5_fixed_width { algID := -7, curve := Curve.p256 } rfl 1 1
    (by decide) (by decide)
  exact h.2.2.1 rfl

/-- Entries that keep the probed key out of the way survive the fold: if
`(k, v)` is already in the accumulator and every remaining entry either
rewrites to a key other than `k` or rewrites to `(k, v)` itself, the pair is
still present at the end. -/
theorem mem_foldl_insertGo_frozen (f : GoValue × GoValue → GoValue × GoValue)
    (k v : GoValue) :
    ∀ (l : HeaderMap) (acc : HeaderMap), (k, v) ∈ acc →
      (∀ e ∈ l, (f e).1 ≠ k ∨ f e = (k, v)) →
      (k, v) ∈ List.foldl (fun m e => insertGo m (f e)) acc l := by
  intro l
  induction l with
  | nil => intro acc hacc _; exact hacc
  | cons e rest ih =>
    intro acc hacc hcol
    rw [List.foldl_cons]
    refine ih _ ?_ (fun e' he' => hcol e' (List.mem_cons_of_mem _ he'))
    rcases hcol e (List.mem_cons_self _ _) with h | h
    · exact mem_insertGo_of_ne acc (f e) (k, v) hacc (by simpa using fun hk => h hk.symm)
    · rw [h]
      exact mem_insertGo_self acc (k, v)

/-- A pass-through entry whose key no other entry rewrites onto is in the
fold's output. -/
theorem mem_foldl_insertGo_of_nocollision (f : GoValue × GoValue → GoValue × GoValue)
    (k v : GoValue) :
    ∀ (l : HeaderMap) (acc : HeaderMap), (k, v) ∈ l → f (k, v) = (k, v) →
      (∀ e ∈ l, (f e).1 ≠ k ∨ f e = (k, v)) →
      (k, v) ∈ List.foldl (fun m e => insertGo m (f e)) acc l := by
  intro l
  induction l with
  | nil => intro acc hmem _ _; cases hmem
  | cons e rest ih =>
    intro acc hmem hfix hcol
    rw [List.foldl_cons]
    rcases List.mem_cons.1 hmem with rfl | hmem'
    · refine mem_foldl_insertGo_frozen f k v rest _ ?_
        (fun e' he' => hcol e' (List.mem_cons_of_mem _ he'))
      rw [hfix]
      exact mem_insertGo_self acc (k, v)
    · exact ih _ hmem' hfix (fun e' he' => hcol e' (List.mem_cons_of_mem _ he'))

/-- Claim C8 (counterexample): pass-through is not unconditional — Go's
`compressed[k] = v` map write lets a recognized entry overwrite an
unrecognized one. Compressing `{CommonHeaderID(1): 5, "alg": "ES256"}`
(with the `"alg"` entry iterated last, a possible Go iteration order)
rewrites `"alg"` onto the key `CommonHeaderID(1)` and clobbers the
unrecognized entry, which is dropped from the output; symmetrically for
decompression onto `CommonHeaderName("alg")`. -/
theorem c8_counterexample :
    isCompressRecognizedKey (GoValue.chID 1) = false ∧
    (GoValue.chID 1, GoValue.int 5) ∈
      ([(GoValue.chID 1, GoValue.int 5), (GoValue.str "alg", GoValue.str "ES256")] :
        HeaderMap) ∧
    CompressHeaders
      [(GoValue.chID 1, GoValue.int 5), (GoValue.str "alg", GoValue.str "ES256")] =
      [(GoValue.chID 1, GoValue.algID (-7))] ∧
    (GoValue.chID 1, GoValue.int 5) ∉
      CompressHeaders
        [(GoValue.chID 1, GoValue.int 5), (GoValue.str "alg", GoValue.str "ES256")] ∧
    isDecompressRecognizedKey (GoValue.chName "alg") = false ∧
    (GoValue.chName "alg", GoValue.int 7) ∈
      ([(GoValue.chName "alg", GoValue.int 7), (GoValue.int 1, GoValue.chID (-7))] :
        HeaderMap) ∧
    DecompressHeaders
      [(GoValue.chName "alg", GoValue.int 7), (GoValue.int 1, GoValue.chID (-7))] =
      [(GoValue.chName "alg", GoValue.algName "ES256")] ∧
    (GoValue.chName "alg", GoValue.int 7) ∉
      DecompressHeaders
        [(GoValue.chName "alg", GoValue.int 7), (GoValue.int 1, GoValue.chID (-7))] := by
  decide

/-- Claim C8 (amended): an entry whose key is unrecognized (for
`CompressHeaders`: any non-string key or unrecognized string; for
`DecompressHeaders`: any non-`int` key or unrecognized tag) is mapped to
itself — key and value untouched — and it appears unchanged in the output
map provided no other entry of the map rewrites onto its key; otherwise
Go's last-write-wins map assignment may overwrite it. -/
theorem c8_passthrough (k v : GoValue) (m : HeaderMap) :
    (isCompressRecognizedKey k = false →
      compressEntry (k, v) = (k, v) ∧
      ((k, v) ∈ m → (∀ e ∈ m, e ≠ (k, v) → (compressEntry e).1 ≠ k) →
        (k, v) ∈ CompressHeaders m)) ∧
    (isDecompressRecognizedKey k = false →
      decompressEntry (k, v) = (k, v) ∧
      ((k, v) ∈ m → (∀ e ∈ m, e ≠ (k, v) → (decompressEntry e).1 ≠ k) →
        (k, v) ∈ DecompressHeaders m)) := by
  constructor
  · intro hk
    have hid : compressEntry (k, v) = (k, v) := by
      cases k with
      | str s =>
        rcases h : getIDByStringName s with e' | tag
        · simp [compressEntry, h]
        · simp [isCompressRecognizedKey, h] at hk
      | int n => rfl
      | int64 n => rfl
      | uint64 n => rfl
      | chID n => rfl
      | chName s => rfl
      | algID n => rfl
      | algName s => rfl
      | bytes bs => rfl
      | boolean b => rfl
      | null => rfl
    refine ⟨hid, fun hm hcol => ?_⟩
    refine mem_foldl_insertGo_of_nocollision compressEntry k v m [] hm hid
      (fun e he => ?_)
    by_cases heq : e = (k, v)
    · exact Or.inr (heq ▸ hid)
    · exact Or.inl (hcol e he heq)
  · intro hk
    have hid : decompressEntry (k, v) = (k, v) := by
      cases k with
      | int n =>
        rcases h : getNameByIntTag n with e' | label
        · simp [decompressEntry, h]
        · simp [isDecompressRecognizedKey, h] at hk
      | str s => rfl
      | int64 n => rfl
      | uint64 n => rfl
      | chID n => rfl
      | chName s => rfl
      | algID n => rfl
      | algName s => rfl
      | bytes bs => rfl
      | boolean b => rfl
      | null => rfl
    refine ⟨hid, fun hm hcol => ?_⟩
    refine mem_foldl_insertGo_of_nocollision decompressEntry k v m [] hm hid
      (fun e he => ?_)
    by_cases heq : e = (k, v)
    · exact Or.inr (heq ▸ hid)
    · exact Or.inl (hcol e he heq)

/-- Witness for C8 (amended) at the unrecognized key from the repository's
own test data (a collision-free singleton map). -/
theorem c8_witness :
    compressEntry (GoValue.str "unknown", GoValue.int (-1)) =
      (GoValue.str "unknown", GoValue.int (-1)) ∧
    (GoValue.str "unknown", GoValue.int (-1)) ∈
      CompressHeaders [(GoValue.str "unknown", GoValue.int (-1))] ∧
    decompressEntry (GoValue.str "unknown", GoValue.int (-1)) =
      (GoValue.str "unknown", GoValue.int (-1)) ∧
    (GoValue.str "unknown", GoValue.int (-1)) ∈
      DecompressHeaders [(GoValue.str "unknown", GoValue.int (-1))] := by
  have h := c8_passthrough (GoValue.str "unknown") (GoValue.int (-1))
    [(GoValue.str "unknown", GoValue.int (-1))]
  have h1 := h.1 (by decide)
  have h2 := h.2 (by decide)
  exact ⟨h1.1, h1.2 (by decide) (by decide), h2.1, h2.2 (by decide) (by decide)⟩

/-- Claim C9: `ECDSAVerifier.Verify` on a signature whose length is not
twice the algorithm's byte width fails with the invalid-length error without
invoking curve verification (the result is independent of the verification
predicate); on a correct-length signature the bytes are split evenly into
two big-endian integers, and a curve rejection is exactly
`ErrECDSAVerification`. -/
theorem c9_verify_length (aid : Int) (k : Nat)
    (hk : getKeySizeForAlgID aid = .ok k) (digest signature : List Nat)
    (f g : List Nat → Nat → Nat → Bool) :
    (signature.length ≠ 2 * k →
      ECDSAVerifier.Verify f { algID := aid } digest signature =
        some (.errInvalidSignatureLength signature.length) ∧
      ECDSAVerifier.Verify f { algID := aid } digest signature =
        ECDSAVerifier.Verify g { algID := aid } digest signature) ∧
    (signature.length = 2 * k →
      ECDSAVerifier.Verify f { algID := aid } digest signature =
        (if f digest (bytesToNat (signature.take k)) (bytesToNat (signature.drop k))
          then none else some GoError.errECDSAVerification)) := by
  have hk1 : ¬k < 1 := by
    unfold getKeySizeForAlgID at hk
    split_ifs at hk
    · injection hk with h2
      omega
    · injection hk with h2
      omega
    · injection hk with h2
      omega
  constructor
  · intro hlen
    constructor <;> simp [ECDSAVerifier.Verify, hk, hk1, hlen]
  · intro hlen
    simp [ECDSAVerifier.Verify, hk, hk1, hlen]

/-- Witness for C9 at ES256 with an empty signature byte string. -/
theorem c9_witness :
    ECDSAVerifier.Verify (fun _ _ _ => true) { algID := -7 } [] [] =
      some (.errInvalidSignatureLength 0) :=
  ((c9_verify_length (-7) 32 (by decide) [] [] (fun _ _ _ => true)
    (fun _ _ _ => true)).1 (by decide)).1

/-- Claim C1 (amended): a signature declaring any non-negative algorithm
value in its protected headers makes both `Sign` and `Verify` fail at that
signature with `ErrAlgNotFound` (not `ErrInvalidAlg` — the algorithm table
resolves only the four negative signing IDs, so the `algID > -1` guard is
unreachable), and neither ever delegates to the signer or verifier: the
result is the same for every signer, verifier, and collaborator
environment. -/
theorem c1_nonneg_alg_rejected (n : Int) (hn : 0 ≤ n) (mh : Option Headers)
    (payload : Option (List Nat)) (external : List Nat) (env : Env)
    (signer : MessageSigner) (verifier : MessageVerifier) (b : Nat) (bs : List Nat) :
    (SignMessage.Sign (msgDecl mh payload n none) env external [signer]).1 =
      .err .errAlgNotFound ∧
    (SignMessage.Verify (msgDecl mh payload n (some (b :: bs))) env external
      [verifier]).1 = .err .errAlgNotFound := by
  have hga : getAlgIDByInt n = .error .errAlgNotFound := by
    unfold getAlgIDByInt
    rw [if_neg (by omega), if_neg (by omega), if_neg (by omega), if_neg (by omega)]
  have hAlg : Headers.Algorithm
      (some { Protected := some [(GoValue.int 1, GoValue.int n)]
              Unprotected := some [] }) =
      (.error .errAlgNotFound,
        some { Protected := some [(GoValue.int 1, GoValue.int n)]
               Unprotected := some [] }) := by
    simp [Headers.Algorithm, normalizeHeaders, CompressHeaders, compressEntry,
      insertGo, probeAlg, algProbeTypes, Headers.Get, getFromMap, lookupGo, hga]
  constructor
  · simp [SignMessage.Sign, msgDecl, sigDecl, signLoop, signOne, hAlg]
  · simp [SignMessage.Verify, msgDecl, sigDecl, verifyLoop, verifyOne, hAlg]

/-- Witness for C1 (amended) at the concrete declared value 5. -/
theorem c1_witness :
    (SignMessage.Sign (msgDecl none none 5 none) env0 [] [signer0]).1 =
      .err .errAlgNotFound ∧
    (SignMessage.Verify (msgDecl none none 5 (some [2])) env0 [] [verifier0]).1 =
      .err .errAlgNotFound :=
  c1_nonneg_alg_rejected 5 (by decide) none none [] env0 signer0 verifier0 2 []
